import Mathlib

/-!
Verification development for the PCF daily-diff tool (src/pcf_downloader.py).

The Python program is shallowly embedded as follows.

* A spreadsheet loaded with pandas (header=None) is a rectangular grid of
  cells; a cell is either missing (pandas NaN) or carries the string that
  Python's str() would render for it.  We model a cell as Option String,
  a row as List Cell and the grid as List Row.
* Python floats are modelled as exact rationals (ℚ); Python ints as ℤ.
  round(x, 2) is modelled as decimal round-half-to-even at two decimal
  places, matching Python's round.
* The mixed string-or-float column 股數變化(%) is modelled by the tagged
  type DeltaPct (num / newPos "新增" / liquidated "清倉").
* Network and file I/O in process/main are modelled by passing the
  downloader and the analysis pipeline as function parameters; the control
  flow (attempt counting, exception-to-exit-code mapping) is translated
  directly from the source.
-/

namespace PCF

/-! ## Python string primitives

These model the exact string operations the source uses:
str.strip, the substring test (the Python "in" operator on strings),
str.isdigit / int(), str.replace with a one-character pattern,
str.endswith('%'), and re.match(r'^\d{4}$', s).
Unicode classes are modelled at the ASCII level (digits, whitespace),
which is faithful for the spreadsheet data the program consumes. -/

/-- Python str.strip(): drop leading and trailing whitespace. -/
def pyStrip (s : String) : String :=
  ⟨((s.data.dropWhile Char.isWhitespace).reverse.dropWhile Char.isWhitespace).reverse⟩

/-- Substring occurrence test on character lists: true iff the second list
occurs contiguously inside the first.  An empty pattern always occurs. -/
def listContains : List Char → List Char → Bool
  | _, [] => true
  | [], _ :: _ => false
  | c :: cs, p :: ps => (p :: ps).isPrefixOf (c :: cs) || listContains cs (p :: ps)

/-- Python "pat in s" substring test. -/
def strContains (s pat : String) : Bool :=
  listContains s.data pat.data

/-- Python re.match(r'^\d{4}$', s): the whole string is exactly four
decimal digits. -/
def isFourDigits (s : String) : Bool :=
  s.data.length == 4 && s.data.all Char.isDigit

/-- Value of one decimal digit character (0 for non-digits; every use is
guarded by Char.isDigit). -/
def digitVal (c : Char) : Nat :=
  if c = '1' then 1 else if c = '2' then 2 else if c = '3' then 3
  else if c = '4' then 4 else if c = '5' then 5 else if c = '6' then 6
  else if c = '7' then 7 else if c = '8' then 8 else if c = '9' then 9 else 0

/-- Numeric value of a digit list (most significant first). -/
def digitsVal (l : List Char) : Nat :=
  l.foldl (fun n c => 10 * n + digitVal c) 0

/-- Split a character list at every occurrence of the separator. -/
def splitOnChar (c : Char) : List Char → List (List Char)
  | [] => [[]]
  | d :: ds =>
    match splitOnChar c ds, decide (d = c) with
    | r, true => [] :: r
    | [], false => [[d]]
    | x :: xs, false => (d :: x) :: xs

/-- Python int(s) guarded by s.isdigit(): some value when s is a nonempty
string of decimal digits, none otherwise. -/
def pyParseDigits (s : String) : Option Nat :=
  if !s.data.isEmpty && s.data.all Char.isDigit then some (digitsVal s.data) else none

/-- Python s.replace(c, '') for a one-character pattern: remove every
occurrence of the character. -/
def removeChar (c : Char) (s : String) : String :=
  ⟨s.data.filter (fun d => d ≠ c)⟩

/-- Python s.endswith(c) for a one-character suffix. -/
def endsWithChar (s : String) (c : Char) : Bool :=
  s.data.getLast? == some c

/-- Python float(s) restricted to plain decimal notation: optional
whitespace padding, optional sign, then digits with at most one decimal
point (at least one digit overall).  Exponent, infinity and NaN forms of
Python's float() are not modelled; the weight cells the program reads are
plain decimals. -/
def pyFloat? (s : String) : Option ℚ :=
  let t := (pyStrip s).data
  let sgn : ℚ × List Char :=
    match t with
    | '-' :: r => (-1, r)
    | '+' :: r => (1, r)
    | r => (1, r)
  match splitOnChar '.' sgn.2 with
  | [ip] =>
      if !ip.isEmpty && ip.all Char.isDigit then
        some (sgn.1 * (digitsVal ip : ℚ))
      else none
  | [ip, fp] =>
      if (!ip.isEmpty || !fp.isEmpty) && ip.all Char.isDigit && fp.all Char.isDigit then
        some (sgn.1 * ((digitsVal ip : ℚ) + (digitsVal fp : ℚ) / (10 : ℚ) ^ fp.length))
      else none
  | _ => none

/-- Python round(x, 2): round-half-to-even at two decimal places,
modelled exactly on rationals. -/
def roundHalfEven (q : ℚ) : ℤ :=
  let f : ℤ := ⌊q⌋
  let r : ℚ := q - f
  if r < 1/2 then f
  else if 1/2 < r then f + 1
  else if f % 2 = 0 then f else f + 1

/-- round(x, 2) on the rational model of Python floats. -/
def round2 (q : ℚ) : ℚ :=
  (roundHalfEven (q * 100) : ℚ) / 100

/-! ## Data model of the spreadsheet grid -/

/-- One spreadsheet cell: none models pandas NaN, some s the string
Python's str() renders for the cell value. -/
abbrev Cell := Option String

/-- One row of the pandas grid (row_values in the source). -/
abbrev Row := List Cell

/-- The untyped grid pd.read_excel(..., header=None) yields. -/
abbrev Grid := List Row

/-- One parsed holding row, the dict appended to stock_data in
parse_pcf_excel: 股票代號 / 股票名稱 / 股數 / 持股權重. -/
structure Holding where
  code : String
  name : String
  shares : ℤ
  weight : ℚ
deriving DecidableEq, Repr

instance : Inhabited Holding := ⟨⟨"", "", 0, 0⟩⟩

/-! ## Table extractor: parse_pcf_excel -/

/-- str(row_values[0]).strip() if pd.notna(row_values[0]) else "". -/
def firstCol (r : Row) : String :=
  match r.getD 0 none with
  | some s => pyStrip s
  | none => ""

/-- Header test: some non-missing cell of the row contains 股票代號. -/
def isHeaderRow (r : Row) : Bool :=
  r.any (fun c =>
    match c with
    | some s => strContains s "股票代號"
    | none => false)

/-- Index of the first header row, scanning top to bottom
(stock_header_row in the source). -/
def findHeaderRow : Grid → Option Nat
  | [] => none
  | r :: rs => if isHeaderRow r then some 0 else (findHeaderRow rs).map (· + 1)

/-- Terminal-row test of the end-of-table scan: blank first cell, 現金
marker, 合計 marker, or first cell not a 4-digit code. -/
def isTerminalRow (r : Row) : Bool :=
  let fc := firstCol r
  fc.data.isEmpty || strContains fc "現金" || strContains fc "合計" || !isFourDigits fc

/-- The scanned candidate rows: the maximal run of non-terminal rows
starting right below the header row. -/
def stockRows (g : Grid) (h : Nat) : List Row :=
  (g.drop (h + 1)).takeWhile (fun r => !isTerminalRow r)

/-- stock_end_row resolved to a number: the index of the first terminal
row at or after h+1, or the grid length when no terminal row exists. -/
def stockEndRow (g : Grid) (h : Nat) : Nat :=
  h + 1 + (stockRows g h).length

/-- The per-row inclusion gate of the extraction loop:
len(row_values) >= 4 and pd.notna(row_values[0]). -/
def codeGate (r : Row) : Bool :=
  4 ≤ r.length && (r.getD 0 none).isSome

/-- str(row_values[k]).strip() if pd.notna(row_values[k]) else dflt. -/
def cellStr (r : Row) (k : Nat) (dflt : String) : String :=
  match r.getD k none with
  | some s => pyStrip s
  | none => dflt

/-- 股數 conversion: strip thousands separators; int() when the result
is all digits, else 0. -/
def parseShares (s : String) : ℤ :=
  match pyParseDigits (removeChar ',' s) with
  | some n => (n : ℤ)
  | none => 0

/-- 持股權重 conversion: float() of the string with '%' removed when it
ends with '%', else 0.0.  none models the ValueError float() raises on a
malformed percent string. -/
def parseWeight? (s : String) : Option ℚ :=
  if endsWithChar s '%' then pyFloat? (removeChar '%' s) else some 0

/-- Parse one gated row into a Holding; none models the ValueError that
aborts parse_pcf_excel. -/
def parseHolding (r : Row) : Option Holding :=
  let code := cellStr r 0 ""
  let name := cellStr r 1 ""
  let sharesStr := cellStr r 2 "0"
  let weightStr := cellStr r 3 "0%"
  match parseWeight? weightStr with
  | none => none
  | some w => some { code := code, name := name, shares := parseShares sharesStr, weight := w }

/-- The extraction loop over the gated rows; any row-level failure aborts
the whole parse (Python exception propagation). -/
def parseAll : List Row → Option (List Holding)
  | [] => some []
  | r :: rs =>
    match parseHolding r with
    | none => none
    | some hld =>
      match parseAll rs with
      | none => none
      | some hs => some (hld :: hs)

/-- parse_pcf_excel: locate the header row, scan to the terminal row,
parse every gated row in between.  none models the raised errors
(找不到股票清單標題行, or a conversion error). -/
def parse_pcf_excel (g : Grid) : Option (List Holding) :=
  match findHeaderRow g with
  | none => none
  | some h => parseAll ((stockRows g h).filter codeGate)

/-! ## Delta engine: compare_pcf_data -/

/-- The 股數變化(%) column value: a rounded float, or the 新增 (NEW)
sentinel string, or the 清倉 (LIQUIDATED) sentinel string.  The source
mixes floats and strings in one column; the tagged type records which. -/
inductive DeltaPct where
  | num (q : ℚ)
  | newPos
  | liquidated
deriving DecidableEq, Repr

/-- The intermediate shares_change value, which the source lets be
float('inf') for a new position. -/
inductive SharesChange where
  | num (q : ℚ)
  | inf
deriving DecidableEq, Repr

/-- shares_change: (current-prev)/prev*100 when prev_shares is nonzero,
else inf when current_shares > 0, else 0.0. -/
def sharesChange (curS prevS : ℤ) : SharesChange :=
  if prevS ≠ 0 then .num (((curS - prevS : ℤ) : ℚ) / (prevS : ℚ) * 100)
  else if 0 < curS then .inf
  else .num 0

/-- The (股數變化(%), 股數變化) pair: the branch on shares_change that
produces the display value and the absolute change. -/
def sharesDeltaPair (curS prevS : ℤ) : DeltaPct × ℤ :=
  match sharesChange curS prevS with
  | .inf => (.newPos, curS)
  | .num q =>
    if q = 0 ∧ curS = 0 ∧ 0 < prevS then (.liquidated, -prevS)
    else (.num (round2 q), curS - prevS)

/-- One output row of the comparison table. -/
structure CompRow where
  code : String
  name : String
  shares : ℤ
  weight : ℚ
  prevShares : ℤ
  prevWeight : ℚ
  sharesDelta : ℤ
  sharesDeltaPct : DeltaPct
  weightDeltaPct : ℚ
deriving DecidableEq, Repr

/-- Dictionary lookup by 股票代號; dict construction iterates the table
in order and overwrites, so a duplicated code resolves to its last row. -/
def lookupCode (tbl : List Holding) (c : String) : Option Holding :=
  (tbl.filter (fun h => h.code == c)).getLast?

/-- The union of the codes of both tables.  The source iterates a Python
set, whose order is unspecified; this embedding fixes one enumeration of
that set (the claims settled against it do not depend on the order). -/
def allCodes (cur prev : List Holding) : List String :=
  ((cur.map Holding.code) ++ (prev.map Holding.code)).dedup

/-- The comparison row built for one code of the union: defaulting of the
absent side to shares 0 / weight 0.0, name preference for the current
table, delta computation, weight delta rounding. -/
def compareRow (cur prev : List Holding) (c : String) : CompRow :=
  let curH := lookupCode cur c
  let prevH := lookupCode prev c
  let curShares : ℤ := match curH with | some h => h.shares | none => 0
  let curWeight : ℚ := match curH with | some h => h.weight | none => 0
  let nm : String :=
    match curH with
    | some h => h.name
    | none =>
      match prevH with
      | some h => h.name
      | none => ""
  let prevShares : ℤ := match prevH with | some h => h.shares | none => 0
  let prevWeight : ℚ := match prevH with | some h => h.weight | none => 0
  let dp := sharesDeltaPair curShares prevShares
  { code := c, name := nm, shares := curShares, weight := curWeight,
    prevShares := prevShares, prevWeight := prevWeight,
    sharesDelta := dp.2, sharesDeltaPct := dp.1,
    weightDeltaPct := round2 (curWeight - prevWeight) }

/-- Sort key of sort_values(['持股權重', '前日持股權重'],
ascending=[False, False]): a precedes b when its current weight is
larger, or equal with previous weight at least as large. -/
def rowLE (a b : CompRow) : Bool :=
  decide (b.weight < a.weight) ||
    (decide (a.weight = b.weight) && decide (b.prevWeight ≤ a.prevWeight))

/-- Insert a row into a list sorted by rowLE. -/
def insertRow (a : CompRow) : List CompRow → List CompRow
  | [] => [a]
  | b :: bs => if rowLE a b then a :: b :: bs else b :: insertRow a bs

/-- Sort by descending current weight, then descending previous weight.
The source sorts with pandas over rows enumerated from a Python set, so
the relative order of rows equal on both keys is unspecified; this
embedding realises one such order. -/
def sortRows : List CompRow → List CompRow
  | [] => []
  | a :: as => insertRow a (sortRows as)

/-- compare_pcf_data: one row per code of the union, sorted. -/
def compare_pcf_data (cur prev : List Holding) : List CompRow :=
  sortRows ((allCodes cur prev).map (compareRow cur prev))

/-! ## Report writer: the highlight decision of save_comparison_result -/

/-- A row fill: 黃色 FFFF00, 淺綠色 90EE90, 粉紅色 FFB6C1, or the default
(no fill). -/
inductive Fill where
  | yellow
  | lightGreen
  | pink
  | noFill
deriving DecidableEq, Repr

/-- The per-row highlight decision: 新增 first, then negative 股數變化,
then numeric 股數變化(%) above 30; the isinstance(int-or-float) guards
exclude the sentinel strings from the numeric tests. -/
def highlightFill (r : CompRow) : Fill :=
  if r.sharesDeltaPct = .newPos then .yellow
  else if r.sharesDelta < 0 then .lightGreen
  else if (match r.sharesDeltaPct with | .num q => decide (30 < q) | _ => false) then .pink
  else .noFill

/-- The fills written for one data row: the chosen fill applied to every
one of the ncols columns (cells keep the default fill when no rule
matched). -/
def rowFills (r : CompRow) (ncols : Nat) : List Fill :=
  List.replicate ncols (highlightFill r)

/-! ## Control flow: find_and_download_previous_day, process, main

The HTTP downloader, the date utilities and the parse-compare-save
pipeline are passed as functions; the source's control flow over them is
translated directly.  download d = none models a failed download of the
file for formatted date d; analyze returns none when the
parse/compare/save block raises and process catches the error. -/

/-- The backward-search loop body, with the remaining attempt count as
fuel: try the previous business day, recurse from it on failure. -/
def findPrevAux {α : Type} (download : String → Option α) (prevBiz toRoc : String → String) :
    Nat → String → Option α
  | 0, _ => none
  | n + 1, cur =>
    let prev := prevBiz cur
    match download (toRoc prev) with
    | some b => some b
    | none => findPrevAux download prevBiz toRoc n prev

/-- find_and_download_previous_day: up to max_attempts = 10 tries. -/
def find_and_download_previous_day {α : Type} (download : String → Option α)
    (prevBiz toRoc : String → String) (dateStr : String) : Option α :=
  findPrevAux download prevBiz toRoc 10 dateStr

/-- process: raises (error) when the current-date file is unobtainable,
returns ok none (no comparison file) when the backward search fails or
the analysis block raises, ok (some path) otherwise. -/
def process {α β : Type} (download : String → Option α) (prevBiz toRoc : String → String)
    (analyze : α → α → Option β) (date : String) : Except String (Option β) :=
  match download (toRoc date) with
  | none => .error "cannot obtain the PCF file for the requested date"
  | some cur =>
    match find_and_download_previous_day download prevBiz toRoc date with
    | none => .ok none
    | some prevContent => .ok (analyze cur prevContent)

/-- main: exit code 1 when process raises, 0 otherwise. -/
def mainExitCode {α β : Type} (download : String → Option α) (prevBiz toRoc : String → String)
    (analyze : α → α → Option β) (date : String) : Nat :=
  match process download prevBiz toRoc analyze date with
  | .error _ => 1
  | .ok _ => 0

/-! ## Concrete inputs used by the claim witnesses -/

/-- Input table for the C2 witness: one instrument present only in the
current table, shares 1000. -/
def newCur : List Holding := [⟨"1101", "abc", 1000, 2⟩]

/-- Input tables for the C6 witness: previous shares 100, current 150. -/
def grewCur : List Holding := [⟨"1101", "abc", 150, 3⟩]

/-- Previous-day table for the C6 witness. -/
def grewPrev : List Holding := [⟨"1101", "abc", 100, 2⟩]

/-- Comparison row for the C8 witness: the NEW sentinel together with a
negative shares_delta (the constructed priority-order case). -/
def newNegRow : CompRow :=
  ⟨"9999", "x", 0, 0, 0, 0, -7, DeltaPct.newPos, 0⟩

/-- Grid for the C4 witness: header marker at row 3, totals marker at
row 10, six stock rows in between. -/
def gridC4 : Grid :=
  [ [some "基金名稱", some "x", some "x", some "x"],
    [some "日期", some "x", some "x", some "x"],
    [some "申購買回清單", some "x", some "x", some "x"],
    [some "股票代號", some "股票名稱", some "股數", some "持股權重"],
    [some "1101", some "台泥", some "1,000", some "1%"],
    [some "1102", some "亞泥", some "2,000", some "2%"],
    [some "1216", some "統一", some "3,000", some "3%"],
    [some "2330", some "台積電", some "4,000", some "4%"],
    [some "2454", some "聯發科", some "5,000", some "5%"],
    [some "2881", some "富邦金", some "6,000", some "6%"],
    [some "合計", some "", some "21,000", some "21%"] ]

/-- Expected extraction of gridC4: exactly rows 4 to 9. -/
def tableC4 : List Holding :=
  [⟨"1101", "台泥", 1000, 1⟩, ⟨"1102", "亞泥", 2000, 2⟩, ⟨"1216", "統一", 3000, 3⟩,
   ⟨"2330", "台積電", 4000, 4⟩, ⟨"2454", "聯發科", 5000, 5⟩, ⟨"2881", "富邦金", 6000, 6⟩]

/-- Follows the spec's words only (not the source): the number of
populated, that is non-missing, cells of a row.  Used to compare the
spec's stated inclusion gate with the gate the code implements. -/
def specPopulatedCells (r : Row) : Nat :=
  (r.filter Option.isSome).length

/-- Grid for the C5 counterexample and witness: a header row and one
4-column stock row whose cells 1-3 are all missing. -/
def gridC5 : Grid :=
  [ [some "股票代號", some "股票名稱", some "股數", some "持股權重"],
    [some "2330", none, none, none] ]

/-- Grid for the C10 witness. -/
def gridC10 : Grid :=
  [ [some "股票代號", some "股票名稱", some "股數", some "持股權重"],
    [some "5871", some "中租", some "7,000", some "7%"] ]

/-! ## Generic helper lemmas -/

lemma takeWhile_getD_true {α : Type} (p : α → Bool) (d : α) :
    ∀ (l : List α) (i : Nat), i < (l.takeWhile p).length → p (l.getD i d) = true := by
  intro l
  induction l with
  | nil => intro i hi; simp [List.takeWhile] at hi
  | cons a as ih =>
    intro i hi
    by_cases hp : p a
    · rw [List.takeWhile_cons, if_pos hp] at hi
      cases i with
      | zero => simpa using hp
      | succ j =>
        simp only [List.length_cons] at hi
        simpa using ih j (by omega)
    · rw [List.takeWhile_cons, if_neg hp] at hi
      simp at hi

lemma takeWhile_stop {α : Type} (p : α → Bool) (d : α) :
    ∀ (l : List α), (l.takeWhile p).length < l.length →
      p (l.getD (l.takeWhile p).length d) = false := by
  intro l
  induction l with
  | nil => intro hi; simp at hi
  | cons a as ih =>
    intro hi
    by_cases hp : p a
    · rw [List.takeWhile_cons, if_pos hp] at hi ⊢
      simp only [List.length_cons] at hi ⊢
      simpa using ih (by omega)
    · rw [List.takeWhile_cons, if_neg hp] at hi ⊢
      simpa using hp

lemma takeWhile_getD_eq {α : Type} (p : α → Bool) (d : α) :
    ∀ (l : List α) (i : Nat), i < (l.takeWhile p).length →
      (l.takeWhile p).getD i d = l.getD i d := by
  intro l
  induction l with
  | nil => intro i hi; simp [List.takeWhile] at hi
  | cons a as ih =>
    intro i hi
    by_cases hp : p a
    · rw [List.takeWhile_cons, if_pos hp] at hi ⊢
      cases i with
      | zero => simp
      | succ j =>
        simp only [List.length_cons] at hi
        simpa using ih j (by omega)
    · rw [List.takeWhile_cons, if_neg hp] at hi
      simp at hi

lemma getD_drop {α : Type} (n : Nat) (l : List α) (j : Nat) (d : α) :
    (l.drop n).getD j d = l.getD (n + j) d := by
  induction n generalizing l with
  | zero => simp
  | succ m ih =>
    cases l with
    | nil => simp
    | cons a as =>
      rw [List.drop_succ_cons, ih as]
      have : m + 1 + j = (m + j) + 1 := by omega
      rw [this, List.getD_cons_succ]

lemma findHeaderRow_spec :
    ∀ (g : Grid) (h : Nat), findHeaderRow g = some h →
      h < g.length ∧ isHeaderRow (g.getD h []) = true
        ∧ ∀ i, i < h → isHeaderRow (g.getD i []) = false := by
  intro g
  induction g with
  | nil => intro h hh; simp [findHeaderRow] at hh
  | cons r rs ih =>
    intro h hh
    by_cases hr : isHeaderRow r
    · rw [findHeaderRow, if_pos hr] at hh
      cases hh
      simp [hr]
    · rw [findHeaderRow, if_neg hr] at hh
      rw [Option.map_eq_some'] at hh
      obtain ⟨h', hh', rfl⟩ := hh
      obtain ⟨l1, l2, l3⟩ := ih h' hh'
      refine ⟨by simpa using l1, by simpa using l2, ?_⟩
      intro i hi
      cases i with
      | zero => simpa using hr
      | succ j => simpa using l3 j (by omega)

lemma parseAll_eq_some :
    ∀ {rs : List Row} {l : List Holding}, parseAll rs = some l →
      l.length = rs.length
        ∧ ∀ i, i < rs.length →
            parseHolding (rs.getD i []) = some (l.getD i default) := by
  intro rs
  induction rs with
  | nil =>
    intro l hl
    cases hl
    exact ⟨rfl, by intro i hi; simp at hi⟩
  | cons r rs ih =>
    intro l hl
    rw [parseAll] at hl
    cases hr : parseHolding r with
    | none => rw [hr] at hl; cases hl
    | some hld =>
      rw [hr] at hl
      cases hrs : parseAll rs with
      | none => rw [hrs] at hl; cases hl
      | some hs =>
        rw [hrs] at hl
        cases hl
        obtain ⟨ihl, ihd⟩ := ih hrs
        refine ⟨by simpa using ihl, ?_⟩
        intro i hi
        cases i with
        | zero => simpa using hr
        | succ j =>
          simp only [List.length_cons] at hi
          simpa using ihd j (by omega)

lemma parseAll_mem :
    ∀ {rs : List Row} {l : List Holding}, parseAll rs = some l →
      ∀ hld ∈ l, ∃ r ∈ rs, parseHolding r = some hld := by
  intro rs
  induction rs with
  | nil =>
    intro l hl
    cases hl
    simp
  | cons r rs ih =>
    intro l hl
    rw [parseAll] at hl
    cases hr : parseHolding r with
    | none => rw [hr] at hl; cases hl
    | some hld0 =>
      rw [hr] at hl
      cases hrs : parseAll rs with
      | none => rw [hrs] at hl; cases hl
      | some hs =>
        rw [hrs] at hl
        cases hl
        intro hld hmem
        rcases List.mem_cons.mp hmem with heq | htail
        · exact ⟨r, List.mem_cons_self r rs, heq ▸ hr⟩
        · obtain ⟨r', hr', hp'⟩ := ih hrs hld htail
          exact ⟨r', List.mem_cons_of_mem r hr', hp'⟩

lemma parseHolding_eq {r : Row} {hld : Holding} (h : parseHolding r = some hld) :
    ∃ w, parseWeight? (cellStr r 3 "0%") = some w
      ∧ hld = { code := cellStr r 0 "", name := cellStr r 1 "",
                shares := parseShares (cellStr r 2 "0"), weight := w } := by
  cases hw : parseWeight? (cellStr r 3 "0%") with
  | none => rw [parseHolding, hw] at h; cases h
  | some w =>
    rw [parseHolding, hw] at h
    cases h
    exact ⟨w, rfl, rfl⟩

lemma cellStr_zero_eq_firstCol (r : Row) : cellStr r 0 "" = firstCol r := by
  rw [cellStr, firstCol]

lemma listContains_of_digits :
    ∀ (cs : List Char), cs.all Char.isDigit = true →
      ∀ (p : Char) (ps : List Char), p.isDigit = false →
        listContains cs (p :: ps) = false := by
  intro cs
  induction cs with
  | nil => intro _ p ps _; rfl
  | cons c cs ih =>
    intro hall p ps hp
    rw [List.all_cons, Bool.and_eq_true] at hall
    have hbe : (p == c) = false := by
      cases hpc : p == c
      · rfl
      · exfalso
        have : p = c := by simpa using hpc
        rw [this, hall.1] at hp
        cases hp
    rw [listContains, List.isPrefixOf, hbe, Bool.false_and, Bool.false_or]
    exact ih hall.2 p ps hp

lemma isFourDigits_ne_empty {s : String} (h : isFourDigits s = true) : s ≠ "" := by
  intro he
  subst he
  simp [isFourDigits] at h

lemma isFourDigits_all_digits {s : String} (h : isFourDigits s = true) :
    s.data.all Char.isDigit = true := by
  rw [isFourDigits, Bool.and_eq_true] at h
  exact h.2

lemma mem_insertRow {a r : CompRow} : ∀ {l : List CompRow},
    (r ∈ insertRow a l ↔ r = a ∨ r ∈ l) := by
  intro l
  induction l with
  | nil => simp [insertRow]
  | cons b bs ih =>
    by_cases h : rowLE a b
    · simp [insertRow, h]
    · simp only [insertRow, if_neg h, List.mem_cons, ih]
      tauto

lemma length_insertRow (a : CompRow) : ∀ (l : List CompRow),
    (insertRow a l).length = l.length + 1 := by
  intro l
  induction l with
  | nil => rfl
  | cons b bs ih =>
    by_cases h : rowLE a b
    · simp [insertRow, h]
    · simp [insertRow, h, ih]

lemma mem_sortRows {r : CompRow} : ∀ {l : List CompRow}, (r ∈ sortRows l ↔ r ∈ l) := by
  intro l
  induction l with
  | nil => simp [sortRows]
  | cons a as ih => simp [sortRows, mem_insertRow, ih]

lemma length_sortRows : ∀ (l : List CompRow), (sortRows l).length = l.length := by
  intro l
  induction l with
  | nil => rfl
  | cons a as ih => simp [sortRows, length_insertRow, ih]

lemma mem_compare {cur prev : List Holding} {r : CompRow} :
    r ∈ compare_pcf_data cur prev ↔ ∃ c ∈ allCodes cur prev, compareRow cur prev c = r := by
  rw [compare_pcf_data, mem_sortRows, List.mem_map]

lemma compareRow_code (cur prev : List Holding) (c : String) :
    (compareRow cur prev c).code = c := rfl

lemma compareRow_deltas (cur prev : List Holding) (c : String) :
    (compareRow cur prev c).sharesDeltaPct
        = (sharesDeltaPair (compareRow cur prev c).shares (compareRow cur prev c).prevShares).1
      ∧ (compareRow cur prev c).sharesDelta
        = (sharesDeltaPair (compareRow cur prev c).shares (compareRow cur prev c).prevShares).2 :=
  ⟨rfl, rfl⟩

lemma round2_zero : round2 0 = 0 := by
  norm_num [round2, roundHalfEven]

lemma shares_pct_eq_zero_iff (curS prevS : ℤ) (h : prevS ≠ 0) :
    ((((curS - prevS : ℤ) : ℚ) / (prevS : ℚ) * 100 = 0) ↔ curS = prevS) := by
  rw [mul_eq_zero, div_eq_zero_iff]
  constructor
  · rintro ((h1 | h1) | h1)
    · have : (curS - prevS : ℤ) = 0 := by exact_mod_cast h1
      omega
    · exact absurd (by exact_mod_cast h1) h
    · norm_num at h1
  · intro hcp
    rw [hcp]
    simp

lemma sharesDeltaPair_formula (curS prevS : ℤ) (h : prevS ≠ 0) :
    sharesDeltaPair curS prevS
      = (.num (round2 (((curS - prevS : ℤ) : ℚ) / (prevS : ℚ) * 100)), curS - prevS) := by
  simp only [sharesDeltaPair, sharesChange, if_pos h]
  rw [if_neg]
  rintro ⟨hq, hc, hp⟩
  have := (shares_pct_eq_zero_iff curS prevS h).mp hq
  omega

lemma sharesDeltaPair_new (curS prevS : ℤ) (h0 : prevS = 0) (hc : 0 < curS) :
    sharesDeltaPair curS prevS = (.newPos, curS) := by
  subst h0
  rw [sharesDeltaPair, sharesChange, if_neg (by simp), if_pos hc]

lemma sharesDeltaPair_zero (curS prevS : ℤ) (h0 : prevS = 0) (hc : curS = 0) :
    sharesDeltaPair curS prevS = (.num 0, 0) := by
  subst h0
  subst hc
  simp [sharesDeltaPair, sharesChange, round2_zero]

lemma sharesDeltaPair_newPos_iff (curS prevS : ℤ) :
    ((sharesDeltaPair curS prevS).1 = .newPos ↔ (prevS = 0 ∧ 0 < curS)) := by
  by_cases h : prevS = 0
  · subst h
    by_cases hc : 0 < curS
    · rw [sharesDeltaPair_new curS 0 rfl hc]
      simp [hc]
    · rw [sharesDeltaPair, sharesChange, if_neg (by simp), if_neg hc]
      simp [hc]
  · rw [sharesDeltaPair_formula curS prevS h]
    simp [h]

/-! ## Claim theorems -/

/-- C1: the claim says a position with current shares 0 and previous
shares > 0 yields the LIQUIDATED (清倉) sentinel with shares_delta equal
to minus the previous shares.  The code's 清倉 branch additionally
requires shares_change == 0.0, which is impossible there (shares_change
is -100.0 whenever current = 0 and previous > 0), so the branch is dead:
at the failing input the code produces the numeric -100.0 instead of the
sentinel (the shares_delta -500 does agree with the claim). -/
theorem pcf_C1_liquidation_eval :
    compare_pcf_data [] [⟨"2330", "tsmc", 500, 1⟩]
      = [{ code := "2330", name := "tsmc", shares := 0, weight := 0, prevShares := 500,
           prevWeight := 1, sharesDelta := -500, sharesDeltaPct := DeltaPct.num (-100),
           weightDeltaPct := -1 }]
    ∧ DeltaPct.num (-100) ≠ DeltaPct.liquidated := by
  constructor
  · norm_num +decide [compare_pcf_data, allCodes, compareRow, lookupCode, sortRows, insertRow,
      sharesDeltaPair, sharesChange, round2, roundHalfEven, List.dedup]
  · simp

/-- C2: for every row of the comparison table, the 新增 (NEW) sentinel
appears iff previous shares = 0 and current shares > 0, in which case
shares_delta equals the current shares; with previous shares = 0 and
current shares = 0 the result is the numeric 0.0, not a sentinel. -/
theorem pcf_C2_new_sentinel (cur prev : List Holding) (r : CompRow)
    (hr : r ∈ compare_pcf_data cur prev) :
    (r.sharesDeltaPct = DeltaPct.newPos ↔ (r.prevShares = 0 ∧ 0 < r.shares))
    ∧ (r.prevShares = 0 → 0 < r.shares → r.sharesDelta = r.shares)
    ∧ (r.prevShares = 0 → r.shares = 0 →
        r.sharesDeltaPct = DeltaPct.num 0 ∧ r.sharesDelta = 0) := by
  obtain ⟨c, hc, hrc⟩ := mem_compare.mp hr
  subst hrc
  obtain ⟨hd1, hd2⟩ := compareRow_deltas cur prev c
  refine ⟨?_, ?_, ?_⟩
  · rw [hd1]
    exact sharesDeltaPair_newPos_iff _ _
  · intro h0 hcpos
    rw [hd2, sharesDeltaPair_new _ _ h0 hcpos]
  · intro h0 hc0
    rw [hd1, hd2, sharesDeltaPair_zero _ _ h0 hc0]
    exact ⟨rfl, rfl⟩

/-- C2 witness: the spec example, instrument only in the current table
with shares 1000 gives the NEW sentinel and shares_delta 1000. -/
theorem pcf_C2_witness :
    (compareRow newCur [] "1101").sharesDeltaPct = DeltaPct.newPos
    ∧ (compareRow newCur [] "1101").sharesDelta = 1000 := by
  have hmem : compareRow newCur [] "1101" ∈ compare_pcf_data newCur [] :=
    mem_compare.mpr ⟨"1101", by decide, rfl⟩
  have h := pcf_C2_new_sentinel newCur [] _ hmem
  have hprev : (compareRow newCur [] "1101").prevShares = 0 := by
    norm_num +decide [compareRow, lookupCode, newCur]
  have hsh : (compareRow newCur [] "1101").shares = 1000 := by
    norm_num +decide [compareRow, lookupCode, newCur]
  have hpos : 0 < (compareRow newCur [] "1101").shares := by
    rw [hsh]
    norm_num
  refine ⟨h.1.mpr ⟨hprev, hpos⟩, ?_⟩
  rw [h.2.1 hprev hpos, hsh]

/-- C3: the codes of the comparison table are exactly the union of the
codes of the two input tables, and the row count is the cardinality of
that union. -/
theorem pcf_C3_union (cur prev : List Holding) :
    ((compare_pcf_data cur prev).map CompRow.code).toFinset
        = (cur.map Holding.code).toFinset ∪ (prev.map Holding.code).toFinset
    ∧ (compare_pcf_data cur prev).length
        = ((cur.map Holding.code).toFinset ∪ (prev.map Holding.code).toFinset).card := by
  have hmap : ∀ c, (c ∈ (compare_pcf_data cur prev).map CompRow.code ↔ c ∈ allCodes cur prev) := by
    intro c
    rw [List.mem_map]
    constructor
    · rintro ⟨r, hr, rfl⟩
      obtain ⟨c', hc', hrc⟩ := mem_compare.mp hr
      rw [← hrc, compareRow_code]
      exact hc'
    · intro hc
      exact ⟨compareRow cur prev c, mem_compare.mpr ⟨c, hc, rfl⟩, compareRow_code cur prev c⟩
  have hunion : (cur.map Holding.code).toFinset ∪ (prev.map Holding.code).toFinset
      = ((cur.map Holding.code) ++ (prev.map Holding.code)).toFinset := by
    rw [List.toFinset_append]
  constructor
  · ext c
    rw [hunion]
    simp only [List.mem_toFinset, hmap, allCodes, List.mem_dedup]
  · have h1 : (compare_pcf_data cur prev).length = (allCodes cur prev).length := by
      rw [compare_pcf_data, length_sortRows, List.length_map]
    rw [hunion, h1, allCodes, List.card_toFinset]

/-- C6: for every row of the comparison table with nonzero previous
shares (and not a liquidation case), shares_delta_pct is
(current-previous)/previous*100 rounded to two decimals and shares_delta
is current-previous. -/
theorem pcf_C6_pct_formula (cur prev : List Holding) (r : CompRow)
    (hr : r ∈ compare_pcf_data cur prev) (hprev : r.prevShares ≠ 0)
    (hnl : ¬(r.shares = 0 ∧ 0 < r.prevShares)) :
    r.sharesDeltaPct
        = DeltaPct.num (round2 (((r.shares - r.prevShares : ℤ) : ℚ) / (r.prevShares : ℚ) * 100))
    ∧ r.sharesDelta = r.shares - r.prevShares := by
  obtain ⟨c, hc, hrc⟩ := mem_compare.mp hr
  subst hrc
  obtain ⟨hd1, hd2⟩ := compareRow_deltas cur prev c
  rw [hd1, hd2, sharesDeltaPair_formula _ _ hprev]
  exact ⟨rfl, rfl⟩

/-- C6 witness: the spec example, previous=100 and current=150 gives
shares_delta_pct 50.0 and shares_delta 50. -/
theorem pcf_C6_witness :
    (compareRow grewCur grewPrev "1101").sharesDeltaPct = DeltaPct.num 50
    ∧ (compareRow grewCur grewPrev "1101").sharesDelta = 50 := by
  have hmem : compareRow grewCur grewPrev "1101" ∈ compare_pcf_data grewCur grewPrev :=
    mem_compare.mpr ⟨"1101", by decide, rfl⟩
  have hprev : (compareRow grewCur grewPrev "1101").prevShares = 100 := by
    norm_num +decide [compareRow, lookupCode, grewCur, grewPrev]
  have hsh : (compareRow grewCur grewPrev "1101").shares = 150 := by
    norm_num +decide [compareRow, lookupCode, grewCur, grewPrev]
  have h := pcf_C6_pct_formula grewCur grewPrev _ hmem
    (by rw [hprev]; norm_num) (by rw [hsh]; norm_num)
  constructor
  · rw [h.1, hprev, hsh]
    norm_num [round2, roundHalfEven]
  · rw [h.2, hprev, hsh]
    norm_num

/-- C8: the report writer chooses at most one highlight per row in
strict priority order (NEW sentinel gives yellow even when shares_delta
is negative; otherwise negative shares_delta gives light green; otherwise
a numeric shares-delta-percent above 30 gives pink; otherwise no fill),
and the chosen fill is applied to every cell of the row. -/
theorem pcf_C8_priority (r : CompRow) (n : Nat) :
    (r.sharesDeltaPct = DeltaPct.newPos → highlightFill r = Fill.yellow)
    ∧ (r.sharesDeltaPct ≠ DeltaPct.newPos → r.sharesDelta < 0 →
        highlightFill r = Fill.lightGreen)
    ∧ (∀ q, r.sharesDeltaPct = DeltaPct.num q → ¬ r.sharesDelta < 0 → 30 < q →
        highlightFill r = Fill.pink)
    ∧ (r.sharesDeltaPct ≠ DeltaPct.newPos → ¬ r.sharesDelta < 0 →
        (∀ q, r.sharesDeltaPct = DeltaPct.num q → ¬ 30 < q) → highlightFill r = Fill.noFill)
    ∧ ∀ i, i < n → (rowFills r n).getD i Fill.noFill = highlightFill r := by
  refine ⟨?_, ?_, ?_, ?_, ?_⟩
  · intro h
    rw [highlightFill, if_pos h]
  · intro h hneg
    rw [highlightFill, if_neg h, if_pos hneg]
  · intro q hq hneg h30
    rw [highlightFill, if_neg (by rw [hq]; simp), if_neg hneg, if_pos]
    rw [hq]
    exact decide_eq_true h30
  · intro h hneg hq
    rw [highlightFill, if_neg h, if_neg hneg, if_neg]
    cases hd : r.sharesDeltaPct with
    | num q => simpa using hq q hd
    | newPos => exact absurd hd h
    | liquidated => simp
  · intro i hi
    rw [rowFills, List.getD_eq_getElem?_getD, List.getElem?_replicate, if_pos hi]
    rfl

/-- C8 witness: a NEW row with negative shares_delta is highlighted
yellow on all nine columns. -/
theorem pcf_C8_witness :
    highlightFill newNegRow = Fill.yellow
    ∧ newNegRow.sharesDelta < 0
    ∧ ∀ i, i < 9 → (rowFills newNegRow 9).getD i Fill.noFill = Fill.yellow := by
  have h := pcf_C8_priority newNegRow 9
  have hy : highlightFill newNegRow = Fill.yellow := h.1 rfl
  refine ⟨hy, by norm_num [newNegRow], ?_⟩
  intro i hi
  rw [h.2.2.2.2 i hi, hy]

/-- C4: the extractor locates the first header row h, the table range
ends exactly at the first terminal row at or after h+1 (or at the end of
the grid when none exists), the scanned rows are exactly the grid rows
of the run, extraction processes exactly the gated rows of that run, and
when every run row passes the gate the output is exactly the parses of
the run rows, one per row. -/
theorem pcf_C4_table_range (g : Grid) (h : Nat) (Hh : findHeaderRow g = some h) :
    isHeaderRow (g.getD h []) = true
    ∧ (∀ i, i < h → isHeaderRow (g.getD i []) = false)
    ∧ h + 1 ≤ stockEndRow g h
    ∧ stockEndRow g h ≤ g.length
    ∧ (∀ i, h + 1 ≤ i → i < stockEndRow g h → isTerminalRow (g.getD i []) = false)
    ∧ (stockEndRow g h < g.length → isTerminalRow (g.getD (stockEndRow g h) []) = true)
    ∧ (stockRows g h).length = stockEndRow g h - (h + 1)
    ∧ (∀ j, j < (stockRows g h).length → (stockRows g h).getD j [] = g.getD (h + 1 + j) [])
    ∧ parse_pcf_excel g = parseAll ((stockRows g h).filter codeGate)
    ∧ (∀ l, parseAll (stockRows g h) = some l →
        (∀ r ∈ stockRows g h, codeGate r = true) →
          parse_pcf_excel g = some l ∧ l.length = stockEndRow g h - (h + 1)) := by
  obtain ⟨hlen, hhead, hfirst⟩ := findHeaderRow_spec g h Hh
  have hdroplen : (g.drop (h + 1)).length = g.length - (h + 1) := by simp
  have htwle : (stockRows g h).length ≤ g.length - (h + 1) := by
    rw [← hdroplen, stockRows]
    exact (List.takeWhile_prefix _).length_le
  refine ⟨hhead, hfirst, by rw [stockEndRow]; omega, by rw [stockEndRow]; omega, ?_, ?_,
    by rw [stockEndRow]; omega, ?_, ?_, ?_⟩
  · intro i h1i hit
    rw [stockEndRow] at hit
    have hjlt : i - (h + 1) < (stockRows g h).length := by omega
    have := takeWhile_getD_true (fun r => !isTerminalRow r) [] (g.drop (h + 1)) (i - (h + 1))
      (by rw [stockRows] at hjlt; exact hjlt)
    rw [getD_drop] at this
    have hi' : h + 1 + (i - (h + 1)) = i := by omega
    rw [hi'] at this
    simpa using this
  · intro hlt
    rw [stockEndRow] at hlt
    have hstop : (stockRows g h).length < (g.drop (h + 1)).length := by
      rw [hdroplen]
      omega
    have := takeWhile_stop (fun r => !isTerminalRow r) [] (g.drop (h + 1))
      (by rw [stockRows] at hstop; exact hstop)
    rw [getD_drop] at this
    rw [stockEndRow, stockRows]
    simpa using this
  · intro j hj
    rw [stockRows] at hj ⊢
    rw [takeWhile_getD_eq _ _ _ j hj, getD_drop]
  · rw [parse_pcf_excel, Hh]
  · intro l hpl hgate
    have hfe : (stockRows g h).filter codeGate = stockRows g h := List.filter_eq_self.mpr hgate
    refine ⟨?_, ?_⟩
    · simp only [parse_pcf_excel, Hh]
      rw [hfe, hpl]
    · rw [(parseAll_eq_some hpl).1, stockEndRow]
      omega

/-- C4 witness: header at row 3 and totals marker at row 10 extract
exactly rows 4 to 9; a 3-digit or 5-digit first cell is terminal. -/
theorem pcf_C4_witness :
    stockEndRow gridC4 3 = 10
    ∧ parse_pcf_excel gridC4 = some tableC4 ∧ tableC4.length = 6
    ∧ isTerminalRow [some "123", some "x", some "1", some "1%"] = true
    ∧ isTerminalRow [some "12345", some "x", some "1", some "1%"] = true := by
  obtain ⟨-, -, -, -, -, -, -, -, -, hlast⟩ := pcf_C4_table_range gridC4 3 (by decide)
  have hpl : parseAll (stockRows gridC4 3) = some tableC4 := by
    norm_num +decide [gridC4, tableC4, stockRows, isTerminalRow, firstCol, pyStrip,
      strContains, listContains, isFourDigits, parseAll, parseHolding, cellStr, parseShares,
      parseWeight?, pyFloat?, pyParseDigits, digitsVal, digitVal, splitOnChar, removeChar,
      endsWithChar]
  have h2 := hlast tableC4 hpl (by decide)
  exact ⟨by decide, h2.1, by decide, by decide, by decide⟩

/-- C5 counterexample: the claim requires at least 4 populated cells for
a row to be included, but the code includes a row with a single
populated cell (the grid width is 4, which is all the gate checks),
parsing it with blank name, shares 0 and weight 0.0. -/
theorem pcf_C5_cex :
    parse_pcf_excel gridC5 = some [⟨"2330", "", 0, 0⟩]
    ∧ specPopulatedCells (gridC5.getD 1 []) = 1
    ∧ ¬ 4 ≤ specPopulatedCells (gridC5.getD 1 []) := by
  refine ⟨?_, by decide, by decide⟩
  norm_num +decide [gridC5, parse_pcf_excel, findHeaderRow, isHeaderRow, strContains,
    listContains, stockRows, isTerminalRow, firstCol, pyStrip, isFourDigits, codeGate,
    parseAll, parseHolding, cellStr, parseShares, parseWeight?, pyFloat?, pyParseDigits,
    digitsVal, digitVal, splitOnChar, removeChar, endsWithChar]

/-- C5 (amended): within the scanned range a row is included iff it has
at least 4 cells and a non-missing first cell (the code checks the row
width, not the populated-cell count); included rows parse cell 0 as the
trimmed code, cell 1 as the trimmed name (blank when missing), cell 2 as
shares with thousands separators stripped (non-numeric gives 0, missing
gives "0"), and cell 3 as the weight with the percent sign handling
(missing gives "0%"); rows failing the gate are skipped without error. -/
theorem pcf_C5_amended (g : Grid) (h : Nat) (l : List Holding)
    (Hh : findHeaderRow g = some h) (Hp : parse_pcf_excel g = some l) :
    parseAll ((stockRows g h).filter codeGate) = some l
    ∧ l.length = ((stockRows g h).filter codeGate).length
    ∧ ∀ j, j < l.length →
        (4 ≤ (((stockRows g h).filter codeGate).getD j []).length
          ∧ ((((stockRows g h).filter codeGate).getD j []).getD 0 none).isSome = true)
        ∧ (l.getD j default).code = cellStr (((stockRows g h).filter codeGate).getD j []) 0 ""
        ∧ (l.getD j default).name = cellStr (((stockRows g h).filter codeGate).getD j []) 1 ""
        ∧ (l.getD j default).shares
            = parseShares (cellStr (((stockRows g h).filter codeGate).getD j []) 2 "0")
        ∧ parseWeight? (cellStr (((stockRows g h).filter codeGate).getD j []) 3 "0%")
            = some (l.getD j default).weight := by
  rw [parse_pcf_excel, Hh] at Hp
  obtain ⟨hlen, hidx⟩ := parseAll_eq_some Hp
  refine ⟨Hp, hlen, ?_⟩
  intro j hj
  have hjr : j < ((stockRows g h).filter codeGate).length := by omega
  have hph := hidx j hjr
  obtain ⟨w, hw, heq⟩ := parseHolding_eq hph
  have hmemf : ((stockRows g h).filter codeGate).getD j [] ∈ (stockRows g h).filter codeGate := by
    rw [List.getD_eq_getElem _ _ hjr]
    exact List.getElem_mem hjr
  have hgate : codeGate (((stockRows g h).filter codeGate).getD j []) = true :=
    (List.mem_filter.mp hmemf).2
  rw [codeGate, Bool.and_eq_true] at hgate
  refine ⟨⟨by simpa using hgate.1, hgate.2⟩, ?_, ?_, ?_, ?_⟩
  · rw [heq]
  · rw [heq]
  · rw [heq]
  · rw [hw, heq]

/-- C5 witness: the amended theorem applied to the concrete grid. -/
theorem pcf_C5_witness :
    parseAll ((stockRows gridC5 0).filter codeGate) = some [⟨"2330", "", 0, 0⟩]
    ∧ ([(⟨"2330", "", 0, 0⟩ : Holding)]).length
        = ((stockRows gridC5 0).filter codeGate).length := by
  have hp : parse_pcf_excel gridC5 = some [⟨"2330", "", 0, 0⟩] := by
    norm_num +decide [gridC5, parse_pcf_excel, findHeaderRow, isHeaderRow, strContains,
      listContains, stockRows, isTerminalRow, firstCol, pyStrip, isFourDigits, codeGate,
      parseAll, parseHolding, cellStr, parseShares, parseWeight?, pyFloat?, pyParseDigits,
      digitsVal, digitVal, splitOnChar, removeChar, endsWithChar]
  have h := pcf_C5_amended gridC5 0 _ (by decide) hp
  exact ⟨h.1, h.2.1⟩

/-- C10: every holding of a successful extraction has a code that is
exactly four decimal digits; in particular the code is never blank and
never contains the cash or totals markers. -/
theorem pcf_C10_codes_four_digits (g : Grid) (l : List Holding)
    (H : parse_pcf_excel g = some l) :
    ∀ hld ∈ l, isFourDigits hld.code = true ∧ hld.code ≠ ""
      ∧ strContains hld.code "現金" = false ∧ strContains hld.code "合計" = false := by
  intro hld hmem
  cases Hh : findHeaderRow g with
  | none => rw [parse_pcf_excel, Hh] at H; cases H
  | some h =>
    rw [parse_pcf_excel, Hh] at H
    obtain ⟨r, hrmem, hpr⟩ := parseAll_mem H hld hmem
    have hrm := List.mem_filter.mp hrmem
    have hterm : isTerminalRow r = false := by
      have := List.mem_takeWhile_imp (l := g.drop (h + 1)) hrm.1
      simpa using this
    have h4 : isFourDigits (firstCol r) = true := by
      cases hf : isFourDigits (firstCol r)
      · rw [isTerminalRow] at hterm
        simp only [hf] at hterm
        simp at hterm
      · rfl
    have hcode : hld.code = firstCol r := by
      obtain ⟨w, hw, heq⟩ := parseHolding_eq hpr
      rw [heq]
      exact cellStr_zero_eq_firstCol r
    rw [hcode]
    refine ⟨h4, isFourDigits_ne_empty h4, ?_, ?_⟩
    · rw [strContains]
      exact listContains_of_digits _ (isFourDigits_all_digits h4) '現' _ (by decide)
    · rw [strContains]
      exact listContains_of_digits _ (isFourDigits_all_digits h4) '合' _ (by decide)

/-- C10 witness: the invariant applied to a concrete extraction. -/
theorem pcf_C10_witness :
    isFourDigits ("5871" : String) = true ∧ ("5871" : String) ≠ ""
    ∧ strContains "5871" "現金" = false ∧ strContains "5871" "合計" = false := by
  have hp : parse_pcf_excel gridC10 = some [⟨"5871", "中租", 7000, 7⟩] := by
    norm_num +decide [gridC10, parse_pcf_excel, findHeaderRow, isHeaderRow, strContains,
      listContains, stockRows, isTerminalRow, firstCol, pyStrip, isFourDigits, codeGate,
      parseAll, parseHolding, cellStr, parseShares, parseWeight?, pyFloat?, pyParseDigits,
      digitsVal, digitVal, splitOnChar, removeChar, endsWithChar]
  have h := pcf_C10_codes_four_digits gridC10 _ hp ⟨"5871", "中租", 7000, 7⟩ (by simp)
  exact h

lemma findPrevAux_none {α : Type} (download : String → Option α) (prevBiz toRoc : String → String) :
    ∀ (n : Nat) (s : String),
      (∀ k, k < n → download (toRoc (prevBiz^[k + 1] s)) = none) →
        findPrevAux download prevBiz toRoc n s = none := by
  intro n
  induction n with
  | zero => intro s _; rfl
  | succ m ih =>
    intro s hall
    have h0 : download (toRoc (prevBiz s)) = none := by
      have := hall 0 (by omega)
      simpa using this
    rw [findPrevAux]
    simp only [h0]
    apply ih
    intro k hk
    have := hall (k + 1) (by omega)
    rwa [Function.iterate_succ_apply] at this

/-- C9: when the current-date file cannot be retrieved the process exits
with code 1; when it is retrieved but all 10 backward attempts fail, the
process produces no comparison file and exits with code 0. -/
theorem pcf_C9_exit_codes {α β : Type} (download : String → Option α)
    (prevBiz toRoc : String → String) (analyze : α → α → Option β) (date : String) :
    (download (toRoc date) = none → mainExitCode download prevBiz toRoc analyze date = 1)
    ∧ ((∃ b, download (toRoc date) = some b) →
        (∀ k, k < 10 → download (toRoc (prevBiz^[k + 1] date)) = none) →
          process download prevBiz toRoc analyze date = .ok none
          ∧ mainExitCode download prevBiz toRoc analyze date = 0) := by
  constructor
  · intro hnone
    rw [mainExitCode, process, hnone]
  · rintro ⟨b, hb⟩ hall
    have hfind : find_and_download_previous_day download prevBiz toRoc date = none := by
      rw [find_and_download_previous_day]
      exact findPrevAux_none download prevBiz toRoc 10 date hall
    constructor
    · rw [process, hb, hfind]
    · rw [mainExitCode, process, hb, hfind]

/-- C9 witness: a downloader that has the current date's file and
nothing earlier. -/
theorem pcf_C9_witness :
    mainExitCode (fun _ => (none : Option Nat)) (fun _ => "X") id
        (fun _ _ => (none : Option Nat)) "D0" = 1
    ∧ process (fun d => if d = "D0" then some 1 else none) (fun _ => "X") id
        (fun _ _ => (none : Option Nat)) "D0" = .ok none
    ∧ mainExitCode (fun d => if d = "D0" then some 1 else none) (fun _ => "X") id
        (fun _ _ => (none : Option Nat)) "D0" = 0 := by
  have h1 := (pcf_C9_exit_codes (fun _ => (none : Option Nat)) (fun _ => "X") id
    (fun _ _ => (none : Option Nat)) "D0").1 rfl
  have h2 := (pcf_C9_exit_codes (fun d => if d = "D0" then some 1 else none) (fun _ => "X") id
    (fun _ _ => (none : Option Nat)) "D0").2 ⟨1, by simp⟩ ?_
  · exact ⟨h1, h2.1, h2.2⟩
  · intro k hk
    rw [Function.iterate_succ_apply']
    simp

end PCF
